import Mathlib

/-!
Verification of the window-search core of `exp_unc.py`
(`find_min_std_window`), embedded over exact rationals.

Modelling conventions:
* Float values are modelled by `ℚ` (exact arithmetic), a missing (NaN)
  channel entry by `none : Option ℚ`.
* pandas `Series.std()` uses the N-1 denominator and skips NaN; it returns
  NaN when fewer than 2 non-NaN values remain.  We carry the *square* of
  the standard deviation (the sample variance, a rational) through the
  search: the square root is strictly monotone on nonnegatives and sample
  variances are nonnegative, so every comparison `current_std < min_std`
  of the source coincides with the comparison of the variances, the
  tie-break is unchanged, and `std_dev = 0 ↔ variance = 0`,
  `std_dev ≥ 0 ↔ variance ≥ 0`.  A NaN standard deviation is the `none`
  value of `sampleVar`; the initial `min_std = inf` is the `none` state of
  the running best.  `NaN < x` is false in IEEE semantics, which the
  update step reproduces: a `none` variance never replaces the best.
* The DataFrame becomes a time column (`X_Value`, the spec guarantees it
  holds no missing values) plus named value channels.
-/

namespace ExpUnc

/-- A channel entry: `none` models a NaN / missing float. -/
abbrev Val := Option ℚ

/-- The errors raised by `find_min_std_window` (`ValueError`s in the
source) plus the spec's taxonomy names. -/
inductive Err where
  | unknownChannel
  | invalidRange
  | noValidWindow
deriving DecidableEq, Repr

/-- The in-memory table: the `X_Value` time column and the named value
channels (association list, preserving column order). -/
structure Series where
  time : List ℚ
  cols : List (String × List Val)

/-- Column lookup, `df[name]`.  The time column is addressed by its fixed
name `X_Value` (as in the source) and holds no missing values. -/
def Series.getCol (s : Series) (name : String) : Option (List Val) :=
  if name = "X_Value" then some (s.time.map some) else s.cols.lookup name

/-- `df[df[X_Value] <= t].index[-1]`: the last (largest, since the index
is the positional range index) row index whose time is `≤ t`; `none` when
the selection is empty (where the source would raise an `IndexError` —
unreachable for the positive window lengths the spec admits, since row `i`
itself is selected). -/
def lastIdxLE (time : List ℚ) (t : ℚ) : Option Nat :=
  ((List.range time.length).filter (fun j => time.getD j 0 ≤ t)).getLast?

/-- `df[column].iloc[i : j+1]`: the closed positional range `[i, j]` of a
channel. -/
def winSlice (col : List Val) (i j : Nat) : List Val :=
  (col.drop i).take (j + 1 - i)

/-- `window.std()` of pandas, carried as its square: NaN entries are
skipped, the mean and the sum of squared deviations run over the non-NaN
values, the denominator is N-1, and fewer than 2 non-NaN values give NaN
(`none`). -/
def sampleVar (vs : List Val) : Option ℚ :=
  let xs := vs.filterMap id
  if xs.length < 2 then none
  else
    let n : ℚ := xs.length
    let m : ℚ := xs.sum / n
    some ((xs.map (fun x => (x - m) ^ 2)).sum / (n - 1))

/-- The running best of the scan: `(best_start_idx, best_end_idx,
min_std², best_window_size)`.  `best_end_idx` is the inclusive end index,
as inside the source's loops. -/
structure Best where
  startIdx : Nat
  endIdx : Nat
  var : ℚ
  winSize : ℚ
deriving DecidableEq, Repr

/-- The update `if current_std < min_std: record (i, end_idx, std, L)`.
`none` is the initial `min_std = inf` state, so any well-defined candidate
replaces it; otherwise the candidate wins only when strictly smaller. -/
def pick (acc : Option Best) (c : Best) : Option Best :=
  match acc with
  | none => some c
  | some b => if c.var < b.var then some c else acc

/-- One iteration of the inner loop of the *variable-length* branch
(source lines 74-99), at start index `i` with target length `L`:
locate the window end, discard windows with fewer than 2 index steps,
compute the windowed standard deviation, discard windows whose achieved
duration misses `L` by more than 1 %, and update the running best.
A `none` standard deviation (NaN) never updates the best, since
`NaN < min_std` is false. -/
def varStep (time : List ℚ) (col : List Val) (L : ℚ) (acc : Option Best)
    (i : Nat) : Option Best :=
  let start_time := time.getD i 0
  let end_time := start_time + L
  match lastIdxLE time end_time with
  | none => acc
  | some j =>
    if j - i < 2 then acc
    else
      let cvar := sampleVar (winSlice col i j)
      let actual := time.getD j 0 - start_time
      if |actual - L| > L * (1 / 100) then acc
      else
        match cvar with
        | none => acc
        | some v => pick acc ⟨i, j, v, L⟩

/-- One iteration of the inner loop of the *fixed-length* branch (source
lines 44-69); the source duplicates the body of the variable-length loop
verbatim. -/
def fixedStep (time : List ℚ) (col : List Val) (window_size : ℚ)
    (acc : Option Best) (i : Nat) : Option Best :=
  let start_time := time.getD i 0
  let end_time := start_time + window_size
  match lastIdxLE time end_time with
  | none => acc
  | some j =>
    if j - i < 2 then acc
    else
      let cvar := sampleVar (winSlice col i j)
      let actual := time.getD j 0 - start_time
      if |actual - window_size| > window_size * (1 / 100) then acc
      else
        match cvar with
        | none => acc
        | some v => pick acc ⟨i, j, v, window_size⟩

/-- The scan over all start indices `for i in range(len(df))` of the
fixed-length branch, from the initial `min_std = inf` state. -/
def fixedScan (time : List ℚ) (col : List Val) (window_size : ℚ) :
    Option Best :=
  (List.range time.length).foldl (fixedStep time col window_size) none

/-- The scan over all start indices for one candidate length of the
variable-length branch, threading the best found so far. -/
def varScan (time : List ℚ) (col : List Val) (L : ℚ) (acc : Option Best) :
    Option Best :=
  (List.range time.length).foldl (varStep time col L) acc

/-- The outer loop of the variable-length branch over the candidate
lengths, from the initial `min_std = inf` state. -/
def varLenScan (time : List ℚ) (col : List Val) (Ls : List ℚ) :
    Option Best :=
  Ls.foldl (fun acc L => varScan time col L acc) none

/-- `np.arange(start, stop, 1)` over exact rationals: `⌈stop - start⌉`
values (none when that is nonpositive) `start, start+1, start+2, …`. -/
def arange (start stop : ℚ) : List ℚ :=
  (List.range (Int.toNat ⌈stop - start⌉)).map (fun k : Nat => start + (k : ℚ))

/-- The search body shared by `find_min_std_window`'s two branches: the
fixed-length scan when `min = max` (source line 41), else the
variable-length scan over `np.arange(min, max + 1, 1)` (source line 72). -/
def searchBest (time : List ℚ) (col : List Val)
    (min_window_size max_window_size : ℚ) : Option Best :=
  if min_window_size = max_window_size then
    fixedScan time col min_window_size
  else
    varLenScan time col (arange min_window_size (max_window_size + 1))

/-- `find_min_std_window(df, column_name, min_window_size,
max_window_size)`: validate the column, validate the range, run the scan,
and return `(best_start_idx, best_end_idx + 1, min_std², best_window_size)`
— the end index is made exclusive on return — or the error the source
raises.  (`min_std` itself is the square root of the third component.) -/
def find_min_std_window (df : Series) (column_name : String)
    (min_window_size max_window_size : ℚ) :
    Except Err (Nat × Nat × ℚ × ℚ) :=
  match df.getCol column_name with
  | none => .error .unknownChannel
  | some col =>
    if min_window_size > max_window_size then .error .invalidRange
    else
      match searchBest df.time col min_window_size max_window_size with
      | none => .error .noValidWindow
      | some b => .ok (b.startIdx, b.endIdx + 1, b.var, b.winSize)

/-- The candidate the scan body would record at start index `i` and target
length `L`, when it survives every discard (enough points, well-defined
standard deviation, 1 % duration tolerance); `none` when the body skips
this start index. -/
def cand? (time : List ℚ) (col : List Val) (L : ℚ) (i : Nat) :
    Option Best :=
  match lastIdxLE time (time.getD i 0 + L) with
  | none => none
  | some j =>
    if j - i < 2 then none
    else
      let cvar := sampleVar (winSlice col i j)
      if |time.getD j 0 - time.getD i 0 - L| > L * (1 / 100) then none
      else cvar.map (fun v => ⟨i, j, v, L⟩)

/-- All surviving candidates of one length, in scan order of the start
index. -/
def candsAt (time : List ℚ) (col : List Val) (L : ℚ) : List Best :=
  (List.range time.length).filterMap (cand? time col L)

/-- All surviving candidates of a length list, in scan order: smallest
length first, then smallest start index. -/
def candList (time : List ℚ) (col : List Val) : List ℚ → List Best
  | [] => []
  | L :: Ls => candsAt time col L ++ candList time col Ls

/-- The candidate lengths the search evaluates: the single fixed length
when `min = max`, else `np.arange(min, max + 1, 1)`. -/
def lengthsOf (min_window_size max_window_size : ℚ) : List ℚ :=
  if min_window_size = max_window_size then [min_window_size]
  else arange min_window_size (max_window_size + 1)

/-- The example table of the spec's §8: `time = [0,1,2,3,4,5]`,
`v = [10,10,10,20,20,20]`. -/
def dfPlateau : Series :=
  ⟨[0, 1, 2, 3, 4, 5],
   [("v", [some 10, some 10, some 10, some 20, some 20, some 20])]⟩

/-- A constant channel sampled at irregular times `0, 3/2, 3`. -/
def dfIrregular : Series :=
  ⟨[0, 3 / 2, 3], [("v", [some 1, some 1, some 1])]⟩

/-- A channel with a single present value followed by two missing ones. -/
def dfMissing : Series :=
  ⟨[0, 1, 2], [("v", [some 1, none, none])]⟩

/-- A series whose whole span (`1/5` s) is far below any window length. -/
def dfShort : Series :=
  ⟨[0, 1 / 10, 1 / 5], [("v", [some 1, some 1, some 1])]⟩

/- ## Bridge lemmas: the scans as a `pick`-fold over the candidate list -/

theorem fixedStep_eq_varStep : @fixedStep = @varStep := rfl

theorem varStep_eq_cand (time : List ℚ) (col : List Val) (L : ℚ)
    (acc : Option Best) (i : Nat) :
    varStep time col L acc i = (cand? time col L i).elim acc (pick acc) := by
  simp only [varStep, cand?]
  cases h : lastIdxLE time (time.getD i 0 + L) with
  | none => rfl
  | some j =>
    dsimp only
    by_cases h2 : j - i < 2
    · rw [if_pos h2, if_pos h2]; rfl
    · rw [if_neg h2, if_neg h2]
      by_cases h3 : |time.getD j 0 - time.getD i 0 - L| > L * (1 / 100)
      · rw [if_pos h3, if_pos h3]; rfl
      · rw [if_neg h3, if_neg h3]
        cases hv : sampleVar (winSlice col i j) <;> simp [hv]

theorem foldl_varStep_filterMap (time : List ℚ) (col : List Val) (L : ℚ) :
    ∀ (idxs : List Nat) (acc : Option Best),
      idxs.foldl (varStep time col L) acc =
        (idxs.filterMap (cand? time col L)).foldl pick acc := by
  intro idxs
  induction idxs with
  | nil => intro acc; rfl
  | cons i idxs ih =>
    intro acc
    rw [List.foldl_cons, ih, List.filterMap_cons]
    cases h : cand? time col L i with
    | none => rw [varStep_eq_cand]; simp [h]
    | some c => rw [varStep_eq_cand]; simp [h]

theorem varScan_eq_pickFold (time : List ℚ) (col : List Val) (L : ℚ)
    (acc : Option Best) :
    varScan time col L acc = (candsAt time col L).foldl pick acc :=
  foldl_varStep_filterMap time col L _ acc

theorem varLenScan_eq_pickFold (time : List ℚ) (col : List Val) :
    ∀ (Ls : List ℚ) (acc : Option Best),
      Ls.foldl (fun a L => varScan time col L a) acc =
        (candList time col Ls).foldl pick acc := by
  intro Ls
  induction Ls with
  | nil => intro acc; rfl
  | cons L Ls ih =>
    intro acc
    rw [List.foldl_cons, ih, candList, List.foldl_append, varScan_eq_pickFold]

theorem searchBest_eq_pickFold (time : List ℚ) (col : List Val)
    (minw maxw : ℚ) :
    searchBest time col minw maxw =
      (candList time col (lengthsOf minw maxw)).foldl pick none := by
  unfold searchBest lengthsOf
  by_cases he : minw = maxw
  · rw [if_pos he, if_pos he, candList, candList, List.foldl_append]
    unfold fixedScan
    rw [fixedStep_eq_varStep, foldl_varStep_filterMap]
    rfl
  · rw [if_neg he, if_neg he]
    exact varLenScan_eq_pickFold time col _ none

/- ## The `pick`-fold keeps the first strict minimizer -/

theorem foldl_pick_some (l : List Best) (b : Best) :
    ∃ b2, l.foldl pick (some b) = some b2 := by
  induction l generalizing b with
  | nil => exact ⟨b, rfl⟩
  | cons c l ih =>
    rw [List.foldl_cons]
    by_cases h : c.var < b.var
    · rw [show pick (some b) c = some c by simp [pick, h]]; exact ih c
    · rw [show pick (some b) c = some b by simp [pick, h]]; exact ih b

theorem foldl_pick_none_iff (l : List Best) :
    l.foldl pick none = none ↔ l = [] := by
  constructor
  · intro h
    cases l with
    | nil => rfl
    | cons c l =>
      exfalso
      rw [List.foldl_cons, show pick none c = some c from rfl] at h
      obtain ⟨b2, hb⟩ := foldl_pick_some l c
      rw [hb] at h
      cases h
  · intro h; subst h; rfl

theorem foldl_pick_first_min :
    ∀ (l : List Best) (b : Best), l.foldl pick none = some b →
      ∃ pre post, l = pre ++ b :: post ∧ (∀ c ∈ pre, b.var < c.var) ∧
        ∀ c ∈ post, b.var ≤ c.var := by
  intro l
  induction l using List.reverseRecOn with
  | nil => intro b h; cases h
  | append_singleton l c ih =>
    intro b h
    rw [List.foldl_append, List.foldl_cons, List.foldl_nil] at h
    cases hl : l.foldl pick none with
    | none =>
      have hnil : l = [] := (foldl_pick_none_iff l).mp hl
      subst hnil
      rw [hl] at h
      have hb : b = c := by
        rw [show pick none c = some c from rfl] at h
        exact (Option.some_inj.mp h).symm
      subst hb
      exact ⟨[], [], rfl, by simp, by simp⟩
    | some b0 =>
      rw [hl] at h
      obtain ⟨pre, post, hdec, hpre, hpost⟩ := ih b0 hl
      by_cases hc : c.var < b0.var
      · rw [show pick (some b0) c = if c.var < b0.var then some c else some b0
            from rfl, if_pos hc] at h
        have hb : b = c := (Option.some_inj.mp h).symm
        subst hb
        refine ⟨l, [], by simp, ?_, by simp⟩
        intro d hd
        rw [hdec] at hd
        rcases List.mem_append.mp hd with hd | hd
        · exact lt_trans hc (hpre d hd)
        · rcases List.mem_cons.mp hd with hd | hd
          · rw [hd]; exact hc
          · exact lt_of_lt_of_le hc (hpost d hd)
      · rw [show pick (some b0) c = if c.var < b0.var then some c else some b0
            from rfl, if_neg hc] at h
        have hb : b = b0 := (Option.some_inj.mp h).symm
        subst hb
        refine ⟨pre, post ++ [c], by rw [hdec]; simp, hpre, ?_⟩
        intro d hd
        rcases List.mem_append.mp hd with hd | hd
        · exact hpost d hd
        · rw [List.mem_singleton.mp hd]; exact le_of_not_lt hc

/- ## What membership in the candidate list means -/

theorem cand?_eq_some {time : List ℚ} {col : List Val} {L : ℚ} {i : Nat}
    {b : Best} (h : cand? time col L i = some b) :
    b.startIdx = i ∧ b.winSize = L ∧ i + 2 ≤ b.endIdx ∧
    lastIdxLE time (time.getD i 0 + L) = some b.endIdx ∧
    sampleVar (winSlice col i b.endIdx) = some b.var ∧
    |time.getD b.endIdx 0 - time.getD i 0 - L| ≤ L * (1 / 100) := by
  simp only [cand?] at h
  cases hj : lastIdxLE time (time.getD i 0 + L) with
  | none => rw [hj] at h; cases h
  | some j =>
    rw [hj] at h
    dsimp only at h
    by_cases h2 : j - i < 2
    · rw [if_pos h2] at h; cases h
    · rw [if_neg h2] at h
      by_cases h3 : |time.getD j 0 - time.getD i 0 - L| > L * (1 / 100)
      · rw [if_pos h3] at h; cases h
      · rw [if_neg h3] at h
        cases hv : sampleVar (winSlice col i j) with
        | none => rw [hv] at h; cases h
        | some v =>
          rw [hv] at h
          have hb : b = ⟨i, j, v, L⟩ := (Option.some_inj.mp h).symm
          subst hb
          refine ⟨rfl, rfl, ?_, ?_, ?_, ?_⟩
          · show i + 2 ≤ j
            omega
          · rfl
          · show sampleVar (winSlice col i j) = some v
            exact hv
          · show |time.getD j 0 - time.getD i 0 - L| ≤ L * (1 / 100)
            exact le_of_not_lt h3

theorem mem_candsAt {time : List ℚ} {col : List Val} {L : ℚ} {c : Best}
    (h : c ∈ candsAt time col L) :
    cand? time col L c.startIdx = some c ∧ c.startIdx < time.length := by
  obtain ⟨i, hi, hc⟩ := List.mem_filterMap.mp h
  have hs : c.startIdx = i := (cand?_eq_some hc).1
  rw [List.mem_range] at hi
  rw [hs]
  exact ⟨hc, hi⟩

theorem mem_candList {time : List ℚ} {col : List Val} {c : Best} :
    ∀ {Ls : List ℚ}, c ∈ candList time col Ls →
      c.winSize ∈ Ls ∧ cand? time col c.winSize c.startIdx = some c ∧
        c.startIdx < time.length := by
  intro Ls
  induction Ls with
  | nil => intro h; cases h
  | cons L Ls ih =>
    intro h
    rw [candList] at h
    rcases List.mem_append.mp h with h | h
    · obtain ⟨hc, hlen⟩ := mem_candsAt h
      have hw : c.winSize = L := (cand?_eq_some hc).2.1
      rw [hw]
      exact ⟨List.mem_cons_self L Ls, hc, hlen⟩
    · obtain ⟨hw, hc, hlen⟩ := ih h
      exact ⟨List.mem_cons_of_mem L hw, hc, hlen⟩

/- ## Characterizing the outcomes of `find_min_std_window` -/

theorem find_ok_elim {df : Series} {name : String} {minw maxw : ℚ}
    {s e : Nat} {v L : ℚ}
    (h : find_min_std_window df name minw maxw = .ok (s, e, v, L)) :
    ∃ col, df.getCol name = some col ∧ minw ≤ maxw ∧
      ∃ b, (candList df.time col (lengthsOf minw maxw)).foldl pick none =
          some b ∧
        s = b.startIdx ∧ e = b.endIdx + 1 ∧ v = b.var ∧ L = b.winSize := by
  unfold find_min_std_window at h
  cases hcol : df.getCol name with
  | none => rw [hcol] at h; cases h
  | some col =>
    rw [hcol] at h
    dsimp only at h
    by_cases hr : minw > maxw
    · rw [if_pos hr] at h; cases h
    · rw [if_neg hr] at h
      cases hb : searchBest df.time col minw maxw with
      | none => rw [hb] at h; cases h
      | some b =>
        rw [hb] at h
        refine ⟨col, rfl, le_of_not_lt hr, b, ?_, ?_⟩
        · rw [← searchBest_eq_pickFold]; exact hb
        · injection h with h4
          simp only [Prod.mk.injEq] at h4
          exact ⟨h4.1.symm, h4.2.1.symm, h4.2.2.1.symm, h4.2.2.2.symm⟩

theorem find_noValid_iff {df : Series} {name : String} {minw maxw : ℚ}
    {col : List Val} (hcol : df.getCol name = some col)
    (hle : minw ≤ maxw) :
    find_min_std_window df name minw maxw = .error .noValidWindow ↔
      candList df.time col (lengthsOf minw maxw) = [] := by
  unfold find_min_std_window
  rw [hcol]
  dsimp only
  rw [if_neg (not_lt.mpr hle), searchBest_eq_pickFold]
  cases hb : (candList df.time col (lengthsOf minw maxw)).foldl pick none with
  | none => simpa using (foldl_pick_none_iff _).mp hb
  | some b =>
    simp only [Except.ok.injEq, reduceCtorEq, false_iff]
    intro hnil
    rw [hnil] at hb
    cases hb

/- ## The windowed statistic -/

theorem sampleVar_eq_some {vs : List Val} {v : ℚ}
    (h : sampleVar vs = some v) :
    2 ≤ (vs.filterMap id).length ∧
    v = ((vs.filterMap id).map
          (fun x =>
            (x - (vs.filterMap id).sum / ((vs.filterMap id).length : ℚ)) ^ 2)).sum /
        (((vs.filterMap id).length : ℚ) - 1) := by
  unfold sampleVar at h
  dsimp only at h
  by_cases hl : (vs.filterMap id).length < 2
  · rw [if_pos hl] at h; cases h
  · rw [if_neg hl] at h
    exact ⟨by omega, (Option.some_inj.mp h).symm⟩

theorem sampleVar_nonneg {vs : List Val} {v : ℚ}
    (h : sampleVar vs = some v) : 0 ≤ v := by
  obtain ⟨hlen, hv⟩ := sampleVar_eq_some h
  rw [hv]
  apply div_nonneg
  · apply List.sum_nonneg
    intro x hx
    obtain ⟨y, _, rfl⟩ := List.mem_map.mp hx
    positivity
  · have h2 : (2 : ℚ) ≤ ((vs.filterMap id).length : ℚ) := by exact_mod_cast hlen
    linarith

/- ## The candidate-length list -/

theorem mem_arange {s t L : ℚ} :
    L ∈ arange s t ↔ ∃ k : ℕ, (k : ℤ) < ⌈t - s⌉ ∧ L = s + k := by
  simp only [arange, List.mem_map, List.mem_range]
  constructor
  · rintro ⟨k, hk, hL⟩
    exact ⟨k, Int.lt_toNat.mp hk, hL.symm⟩
  · rintro ⟨k, hk, hL⟩
    exact ⟨k, Int.lt_toNat.mpr hk, hL.symm⟩

theorem lengthsOf_bounds {minw maxw L : ℚ} (hle : minw ≤ maxw)
    (h : L ∈ lengthsOf minw maxw) :
    minw ≤ L ∧ L < maxw + 1 ∧ ∀ m : ℤ, maxw - minw = (m : ℚ) → L ≤ maxw := by
  unfold lengthsOf at h
  by_cases he : minw = maxw
  · rw [if_pos he] at h
    rw [List.mem_singleton] at h
    subst h
    exact ⟨le_refl _, by linarith, fun m hm => le_of_eq he⟩
  · rw [if_neg he] at h
    obtain ⟨k, hk, rfl⟩ := mem_arange.mp h
    have h0 : (0 : ℚ) ≤ (k : ℚ) := Nat.cast_nonneg k
    refine ⟨by linarith, ?_, ?_⟩
    · have hk3 : (k : ℤ) ≤ ⌈maxw + 1 - minw⌉ - 1 := by omega
      have hk4 : (k : ℚ) ≤ (⌈maxw + 1 - minw⌉ : ℚ) - 1 := by exact_mod_cast hk3
      have hc := Int.ceil_lt_add_one (maxw + 1 - minw)
      linarith
    · intro m hm
      have hcast : maxw + 1 - minw = ((m + 1 : ℤ) : ℚ) := by push_cast; linarith
      rw [hcast, Int.ceil_intCast] at hk
      have hkm : (k : ℤ) ≤ m := by omega
      have hkm2 : (k : ℚ) ≤ (m : ℚ) := by exact_mod_cast hkm
      linarith

theorem mem_arange_int {a b : ℤ} {L : ℚ} :
    L ∈ arange (a : ℚ) ((b : ℚ) + 1) ↔
      ∃ k : ℤ, a ≤ k ∧ k ≤ b ∧ L = (k : ℚ) := by
  rw [mem_arange]
  have hceil : ⌈((b : ℚ) + 1) - (a : ℚ)⌉ = b + 1 - a := by
    rw [show ((b : ℚ) + 1) - (a : ℚ) = ((b + 1 - a : ℤ) : ℚ) by push_cast; ring,
      Int.ceil_intCast]
  rw [hceil]
  constructor
  · rintro ⟨k, hk, rfl⟩
    exact ⟨a + k, by omega, by omega, by push_cast; ring⟩
  · rintro ⟨k, hk1, hk2, rfl⟩
    refine ⟨(k - a).toNat, ?_, ?_⟩
    · rw [Int.toNat_of_nonneg (by omega)]; omega
    · rw [show ((k - a).toNat : ℚ) = ((((k - a).toNat : ℤ)) : ℚ) by push_cast; ring,
        Int.toNat_of_nonneg (by omega)]
      push_cast
      ring

theorem candList_eq_nil_iff {time : List ℚ} {col : List Val} :
    ∀ {Ls : List ℚ}, candList time col Ls = [] ↔
      ∀ L ∈ Ls, ∀ i < time.length, cand? time col L i = none := by
  intro Ls
  induction Ls with
  | nil => simp [candList]
  | cons L Ls ih =>
    rw [candList, List.append_eq_nil, ih]
    unfold candsAt
    rw [List.filterMap_eq_nil_iff]
    constructor
    · rintro ⟨h1, h2⟩ L2 hL2 i hi
      rcases List.mem_cons.mp hL2 with hL2 | hL2
      · subst hL2; exact h1 i (List.mem_range.mpr hi)
      · exact h2 L2 hL2 i hi
    · intro h
      constructor
      · intro i hi
        exact h L (List.mem_cons_self L Ls) i (List.mem_range.mp hi)
      · intro L2 hL2 i hi
        exact h L2 (List.mem_cons_of_mem L hL2) i hi

/- ## The claims -/

/-- Claim C1, amended: whenever `find_min_std_window` returns a window,
the realized duration `time[end_index-1] - time[start_index]` is within
1 % relative tolerance of the returned window length; that length is at
least `min_length` and *less than `max_length + 1`*, and it is at most
`max_length` whenever `max_length - min_length` is an integer (so in
particular for integer-valued bounds).  The original claim's interval
`[min_length, max_length]` fails for fractional spans, because
`np.arange(min, max + 1, 1)` can emit `min + k > max`. -/
theorem find_ok_duration_within_tolerance_and_length_bounds
    {df : Series} {name : String} {minw maxw : ℚ} {s e : Nat} {v L : ℚ}
    (h : find_min_std_window df name minw maxw = .ok (s, e, v, L)) :
    |df.time.getD (e - 1) 0 - df.time.getD s 0 - L| ≤ L * (1 / 100) ∧
    minw ≤ L ∧ L < maxw + 1 ∧
    ∀ m : ℤ, maxw - minw = (m : ℚ) → L ≤ maxw := by
  obtain ⟨col, hcol, hle, b, hfold, hs, he, hv, hL⟩ := find_ok_elim h
  obtain ⟨pre, post, hdec, hpre, hpost⟩ := foldl_pick_first_min _ b hfold
  have hmem : b ∈ candList df.time col (lengthsOf minw maxw) := by
    rw [hdec]
    exact List.mem_append.mpr (Or.inr (List.mem_cons_self _ _))
  obtain ⟨hwmem, hcand, hlen⟩ := mem_candList hmem
  obtain ⟨hsi, hwz, hij, hlast, hvar, htol⟩ := cand?_eq_some hcand
  subst hs he hv hL
  refine ⟨?_, lengthsOf_bounds hle hwmem⟩
  rw [show b.endIdx + 1 - 1 = b.endIdx from rfl]
  exact htol

/-- Claim C1, counterexample to the original interval: with times
`0, 3/2, 3`, a constant channel and `min_length = 2`,
`max_length = 5/2`, the search returns window length `3 > 5/2`. -/
theorem find_ok_length_can_exceed_max :
    find_min_std_window dfIrregular "v" 2 (5 / 2) = .ok (0, 3, 0, 3) ∧
    ¬((3 : ℚ) ≤ 5 / 2) := by
  constructor
  · with_unfolding_all rfl
  · norm_num

/-- Claim C1, witness at the plateau example. -/
theorem find_ok_duration_within_tolerance_witness :
    |dfPlateau.time.getD (3 - 1) 0 - dfPlateau.time.getD 0 0 - 2| ≤
        2 * (1 / 100) ∧
    (2 : ℚ) ≤ 2 ∧ (2 : ℚ) < 2 + 1 ∧
    ∀ m : ℤ, (2 : ℚ) - 2 = (m : ℚ) → (2 : ℚ) ≤ 2 :=
  @find_ok_duration_within_tolerance_and_length_bounds dfPlateau "v" 2 2 0 3 0 2
    (by with_unfolding_all rfl)

/-- Claim C2, amended: for `min_length < max_length` the evaluated
candidate lengths are `np.arange(min, max + 1, 1)`, i.e. exactly the
values `min + k` for natural `k < ⌈max + 1 - min⌉`; when both bounds are
integers this is exactly the integers of `[min, max]` in steps of 1, but
for fractional bounds the lengths need not be integers and the last one
may exceed `max_length`. -/
theorem evaluated_lengths_characterization {minw maxw : ℚ}
    (h : minw < maxw) :
    lengthsOf minw maxw = arange minw (maxw + 1) ∧
    (∀ L : ℚ, L ∈ arange minw (maxw + 1) ↔
      ∃ k : ℕ, (k : ℤ) < ⌈maxw + 1 - minw⌉ ∧ L = minw + k) ∧
    ∀ a b : ℤ, minw = (a : ℚ) → maxw = (b : ℚ) →
      ∀ L : ℚ, L ∈ arange minw (maxw + 1) ↔
        ∃ k : ℤ, a ≤ k ∧ k ≤ b ∧ L = (k : ℚ) := by
  refine ⟨?_, fun L => mem_arange, ?_⟩
  · unfold lengthsOf
    rw [if_neg (ne_of_lt h)]
  · rintro a b rfl rfl L
    exact mem_arange_int

/-- Claim C2, counterexample to the original: for `min_length = 2`,
`max_length = 5/2` the evaluated lengths are `[2, 3]`, and `3` is not an
integer-second length inside `[2, 5/2]`. -/
theorem evaluated_lengths_counterexample :
    lengthsOf 2 (5 / 2) = [2, 3] ∧ ¬((3 : ℚ) ≤ 5 / 2) := by
  constructor
  · with_unfolding_all rfl
  · norm_num

/-- Claim C2, witness at integer bounds `2 < 3`. -/
theorem evaluated_lengths_witness :
    lengthsOf 2 3 = arange 2 (3 + 1) ∧
    (∀ L : ℚ, L ∈ arange 2 (3 + 1) ↔
      ∃ k : ℕ, (k : ℤ) < ⌈(3 : ℚ) + 1 - 2⌉ ∧ L = 2 + k) ∧
    ∀ a b : ℤ, (2 : ℚ) = (a : ℚ) → (3 : ℚ) = (b : ℚ) →
      ∀ L : ℚ, L ∈ arange 2 (3 + 1) ↔
        ∃ k : ℤ, a ≤ k ∧ k ≤ b ∧ L = (k : ℚ) :=
  evaluated_lengths_characterization (by norm_num)

/-- Claim C3: the returned window is a surviving candidate of the scan,
every candidate strictly before it in scan order (smaller target length
first, then smaller start index) has strictly larger standard deviation,
and every candidate after it has larger-or-equal standard deviation — so
ties keep the first-found candidate and a later candidate displaces the
best only when strictly smaller.  (Comparisons of standard deviations and
of the carried variances agree, `√` being strictly monotone on
nonnegatives.) -/
theorem returned_window_is_first_minimizer
    {df : Series} {name : String} {minw maxw : ℚ} {s e : Nat} {v L : ℚ}
    {col : List Val} (hcol : df.getCol name = some col)
    (h : find_min_std_window df name minw maxw = .ok (s, e, v, L)) :
    ∃ pre post,
      candList df.time col (lengthsOf minw maxw) =
        pre ++ (⟨s, e - 1, v, L⟩ : Best) :: post ∧
      (∀ c ∈ pre, v < c.var) ∧ ∀ c ∈ post, v ≤ c.var := by
  obtain ⟨col2, hcol2, hle, b, hfold, hs, he, hv, hL⟩ := find_ok_elim h
  rw [hcol] at hcol2
  have hc : col = col2 := Option.some_inj.mp hcol2
  subst hc hs he hv hL
  obtain ⟨pre, post, hdec, hpre, hpost⟩ := foldl_pick_first_min _ b hfold
  have hb : (⟨b.startIdx, b.endIdx + 1 - 1, b.var, b.winSize⟩ : Best) = b := by
    cases b
    rfl
  rw [hb]
  exact ⟨pre, post, hdec, hpre, hpost⟩

/-- Claim C3, witness at the plateau example (where the two zero-variance
plateaus tie and the first window wins). -/
theorem returned_window_is_first_minimizer_witness :
    ∃ pre post,
      candList dfPlateau.time
          [some 10, some 10, some 10, some 20, some 20, some 20]
          (lengthsOf 2 2) =
        pre ++ (⟨0, 3 - 1, 0, 2⟩ : Best) :: post ∧
      (∀ c ∈ pre, (0 : ℚ) < c.var) ∧ ∀ c ∈ post, (0 : ℚ) ≤ c.var :=
  @returned_window_is_first_minimizer dfPlateau "v" 2 2 0 3 0 2
    [some 10, some 10, some 10, some 20, some 20, some 20]
    (by rfl) (by with_unfolding_all rfl)

/-- Claim C4: every returned window has `start_index < end_index`,
`end_index - start_index ≥ 3` (exclusive end), and a nonnegative
standard deviation: the returned statistic is the sample variance
`std_dev²`, so `0 ≤ v` is exactly `std_dev ≥ 0`. -/
theorem find_ok_invariants {df : Series} {name : String} {minw maxw : ℚ}
    {s e : Nat} {v L : ℚ}
    (h : find_min_std_window df name minw maxw = .ok (s, e, v, L)) :
    s < e ∧ 3 ≤ e - s ∧ 0 ≤ v := by
  obtain ⟨col, hcol, hle, b, hfold, hs, he, hv, hL⟩ := find_ok_elim h
  obtain ⟨pre, post, hdec, hpre, hpost⟩ := foldl_pick_first_min _ b hfold
  have hmem : b ∈ candList df.time col (lengthsOf minw maxw) := by
    rw [hdec]
    exact List.mem_append.mpr (Or.inr (List.mem_cons_self _ _))
  obtain ⟨hwmem, hcand, hlen⟩ := mem_candList hmem
  obtain ⟨hsi, hwz, hij, hlast, hvar, htol⟩ := cand?_eq_some hcand
  subst hs he hv hL
  exact ⟨by omega, by omega, sampleVar_nonneg hvar⟩

/-- Claim C4, witness at the plateau example. -/
theorem find_ok_invariants_witness : 0 < 3 ∧ 3 ≤ 3 - 0 ∧ (0 : ℚ) ≤ 0 :=
  @find_ok_invariants dfPlateau "v" 2 2 0 3 0 2 (by with_unfolding_all rfl)

/-- Claim C5: the statistic of the returned window is the sample variance
(squared sample standard deviation, N-1 denominator) of the non-missing
channel values over the closed index range `[start_index, end_index - 1]`
(the returned end index being exclusive): at least two values survive,
and the value is the sum of squared deviations from their mean divided by
N-1. -/
theorem returned_std_is_sample_variance
    {df : Series} {name : String} {minw maxw : ℚ} {s e : Nat} {v L : ℚ}
    {col : List Val} (hcol : df.getCol name = some col)
    (h : find_min_std_window df name minw maxw = .ok (s, e, v, L)) :
    2 ≤ ((winSlice col s (e - 1)).filterMap id).length ∧
    v = (((winSlice col s (e - 1)).filterMap id).map
          (fun x =>
            (x - ((winSlice col s (e - 1)).filterMap id).sum /
              (((winSlice col s (e - 1)).filterMap id).length : ℚ)) ^ 2)).sum /
        ((((winSlice col s (e - 1)).filterMap id).length : ℚ) - 1) := by
  obtain ⟨col2, hcol2, hle, b, hfold, hs, he, hv, hL⟩ := find_ok_elim h
  rw [hcol] at hcol2
  have hc : col = col2 := Option.some_inj.mp hcol2
  subst hc hs he hv hL
  obtain ⟨pre, post, hdec, hpre, hpost⟩ := foldl_pick_first_min _ b hfold
  have hmem : b ∈ candList df.time col (lengthsOf minw maxw) := by
    rw [hdec]
    exact List.mem_append.mpr (Or.inr (List.mem_cons_self _ _))
  obtain ⟨hwmem, hcand, hlen⟩ := mem_candList hmem
  obtain ⟨hsi, hwz, hij, hlast, hvar, htol⟩ := cand?_eq_some hcand
  rw [show b.endIdx + 1 - 1 = b.endIdx from rfl]
  exact sampleVar_eq_some hvar

/-- Claim C5, witness at the plateau example: the window `[10, 10, 10]`
has three surviving values and variance `0`. -/
theorem returned_std_is_sample_variance_witness :
    2 ≤ ((winSlice [some 10, some 10, some 10, some 20, some 20, some 20]
        0 (3 - 1)).filterMap id).length ∧
    (0 : ℚ) =
      (((winSlice [some 10, some 10, some 10, some 20, some 20, some 20]
            0 (3 - 1)).filterMap id).map
          (fun x =>
            (x - ((winSlice [some 10, some 10, some 10, some 20, some 20,
                some 20] 0 (3 - 1)).filterMap id).sum /
              (((winSlice [some 10, some 10, some 10, some 20, some 20,
                some 20] 0 (3 - 1)).filterMap id).length : ℚ)) ^ 2)).sum /
        ((((winSlice [some 10, some 10, some 10, some 20, some 20,
            some 20] 0 (3 - 1)).filterMap id).length : ℚ) - 1) :=
  @returned_std_is_sample_variance dfPlateau "v" 2 2 0 3 0 2
    [some 10, some 10, some 10, some 20, some 20, some 20]
    (by rfl) (by with_unfolding_all rfl)

/-- Claim C6, amended: with a present channel and a well-ordered positive
range, the search fails with `NoValidWindow` iff no start index and
evaluated length yields a surviving candidate — one passing the
minimum-points check, the 1 % duration tolerance, *and* having a
well-defined (non-NaN) standard deviation, i.e. at least two non-missing
values.  The original claim omitted the last condition: a window can meet
the size and tolerance constraints while its standard deviation is NaN
from missing values, and `NoValidWindow` is still raised.  A series whose
span is everywhere shorter than the achievable duration of `min_length`
has no surviving candidate, so it fails this way. -/
theorem noValidWindow_iff_no_candidate
    {df : Series} {name : String} {minw maxw : ℚ} {col : List Val}
    (_hpos : 0 < minw) (hle : minw ≤ maxw)
    (hcol : df.getCol name = some col) :
    find_min_std_window df name minw maxw = .error .noValidWindow ↔
      ∀ L ∈ lengthsOf minw maxw, ∀ i < df.time.length,
        cand? df.time col L i = none := by
  rw [find_noValid_iff hcol hle]
  exact candList_eq_nil_iff

/-- Claim C6, counterexample to the original "iff": the channel
`[1, NaN, NaN]` over times `[0, 1, 2]` with fixed length 2 raises
`NoValidWindow`, although the window starting at index 0 satisfies both
the minimum-points constraint (`end_idx = 2 ≥ 0 + 2`) and the 1 %
duration tolerance. -/
theorem noValidWindow_despite_valid_size_and_tolerance :
    find_min_std_window dfMissing "v" 2 2 = .error .noValidWindow ∧
    lastIdxLE dfMissing.time (dfMissing.time.getD 0 0 + 2) = some 2 ∧
    ¬(2 - 0 < 2) ∧
    |dfMissing.time.getD 2 0 - dfMissing.time.getD 0 0 - 2| ≤
      2 * (1 / 100) := by
  refine ⟨by with_unfolding_all rfl, by with_unfolding_all rfl, by decide,
    by with_unfolding_all decide⟩

/-- Claim C6, witness: a series spanning only `1/5` s has no valid window
for lengths in `[2, 3]`. -/
theorem noValidWindow_iff_no_candidate_witness :
    find_min_std_window dfShort "v" 2 3 = .error .noValidWindow ↔
      ∀ L ∈ lengthsOf 2 3, ∀ i < dfShort.time.length,
        cand? dfShort.time [some 1, some 1, some 1] L i = none :=
  noValidWindow_iff_no_candidate (by norm_num) (by norm_num) (by rfl)

/-- Claim C7, amended: the search fails with `UnknownChannel` whenever
the requested column is absent, and with `InvalidRange` whenever the
column is present and `min_length > max_length`; both validations precede
the scan.  The original claim promised `InvalidRange` for *every*
`min_length > max_length`, but the column check runs first, so an absent
column together with an inverted range yields `UnknownChannel`. -/
theorem validation_errors {df : Series} {name : String} {minw maxw : ℚ} :
    (df.getCol name = none →
      find_min_std_window df name minw maxw = .error .unknownChannel) ∧
    (df.getCol name ≠ none → minw > maxw →
      find_min_std_window df name minw maxw = .error .invalidRange) := by
  constructor
  · intro h
    unfold find_min_std_window
    rw [h]
  · intro h hr
    unfold find_min_std_window
    cases hcol : df.getCol name with
    | none => exact absurd hcol h
    | some col =>
      dsimp only
      rw [if_pos hr]

/-- Claim C7, counterexample to the original: an absent column *and* an
inverted range yield `UnknownChannel`, not `InvalidRange`. -/
theorem inverted_range_with_unknown_channel :
    find_min_std_window dfPlateau "w" 10 5 = .error .unknownChannel ∧
    Err.unknownChannel ≠ Err.invalidRange := by
  refine ⟨by with_unfolding_all rfl, by decide⟩

/-- Claim C7, witness for both validations. -/
theorem validation_errors_witness :
    find_min_std_window dfPlateau "w" 2 2 = .error .unknownChannel ∧
    find_min_std_window dfPlateau "v" 10 5 = .error .invalidRange :=
  ⟨(@validation_errors dfPlateau "w" 2 2).1 (by rfl),
   (@validation_errors dfPlateau "v" 10 5).2 (by with_unfolding_all decide)
     (by norm_num)⟩

/-- Claim C8: on `time = [0,1,2,3,4,5]`, `v = [10,10,10,20,20,20]` with
`min_length = max_length = 2`, the search returns start index 0,
exclusive end index 3, standard deviation 0 (the carried variance is its
square, also 0) and window length 2: the first 2-second span of the first
plateau wins by scan order. -/
theorem plateau_example_result :
    find_min_std_window dfPlateau "v" 2 2 = .ok (0, 3, 0, 2) := by
  with_unfolding_all rfl

/-- Claim C9: the dedicated fixed-size branch (`min == max`) computes
exactly what the general variable-length scan computes on the candidate
length list restricted to that single length — same start index, end
index, statistic and window length. -/
theorem fixed_branch_equals_singleton_scan :
    ∀ (time : List ℚ) (col : List Val) (L : ℚ),
      fixedScan time col L = varLenScan time col [L] := by
  intro time col L
  unfold fixedScan varLenScan varScan
  rw [fixedStep_eq_varStep]
  rfl

/-- Claim C10: missing (NaN) values are excluded from the standard
deviation — the statistic of a window equals the statistic of its
non-missing values alone; a window whose standard deviation is NaN
(fewer than two non-missing values) never updates the running best,
since `NaN < min_std` is false; and consequently every returned window
contains at least two non-missing values of the chosen channel. -/
theorem nan_windows_never_best :
    (∀ vs : List Val, sampleVar vs = sampleVar ((vs.filterMap id).map some)) ∧
    (∀ (time : List ℚ) (col : List Val) (L : ℚ) (acc : Option Best)
      (i j : Nat), lastIdxLE time (time.getD i 0 + L) = some j →
      sampleVar (winSlice col i j) = none →
      varStep time col L acc i = acc) ∧
    ∀ (df : Series) (name : String) (minw maxw : ℚ) (s e : Nat)
      (v L : ℚ) (col : List Val), df.getCol name = some col →
      find_min_std_window df name minw maxw = .ok (s, e, v, L) →
      2 ≤ ((winSlice col s (e - 1)).filterMap id).length := by
  refine ⟨?_, ?_, ?_⟩
  · intro vs
    unfold sampleVar
    rw [List.filterMap_map]
    rw [show (id ∘ some : ℚ → Option ℚ) = some from rfl, List.filterMap_some]
  · intro time col L acc i j hj hvar
    simp only [varStep]
    rw [hj]
    dsimp only
    by_cases h2 : j - i < 2
    · rw [if_pos h2]
    · rw [if_neg h2]
      by_cases h3 : |time.getD j 0 - time.getD i 0 - L| > L * (1 / 100)
      · rw [if_pos h3]
      · rw [if_neg h3, hvar]
  · intro df name minw maxw s e v L col hcol h
    obtain ⟨col2, hcol2, hle, b, hfold, hs, he, hv, hL⟩ := find_ok_elim h
    rw [hcol] at hcol2
    have hc : col = col2 := Option.some_inj.mp hcol2
    subst hc hs he hv hL
    obtain ⟨pre, post, hdec, hpre, hpost⟩ := foldl_pick_first_min _ b hfold
    have hmem : b ∈ candList df.time col (lengthsOf minw maxw) := by
      rw [hdec]
      exact List.mem_append.mpr (Or.inr (List.mem_cons_self _ _))
    obtain ⟨hwmem, hcand, hlen⟩ := mem_candList hmem
    obtain ⟨hsi, hwz, hij, hlast, hvar, htol⟩ := cand?_eq_some hcand
    rw [show b.endIdx + 1 - 1 = b.endIdx from rfl]
    exact (sampleVar_eq_some hvar).1

/-- Claim C10, witness at the plateau example. -/
theorem nan_windows_never_best_witness :
    2 ≤ ((winSlice [some 10, some 10, some 10, some 20, some 20, some 20]
        0 (3 - 1)).filterMap id).length :=
  nan_windows_never_best.2.2 dfPlateau "v" 2 2 0 3 0 2
    [some 10, some 10, some 10, some 20, some 20, some 20]
    (by rfl) (by with_unfolding_all rfl)

end ExpUnc
